import Mathlib

/-!
Shallow embedding of the Lighthouse CLI batch runner
(the multi-URL script `lighthouse-cli` of this repository).

The script parses a URL list, deduplicates and normalizes it, acquires a
Chrome browser session, runs the external `lighthouse` auditor once per URL
in bounded-concurrency windows, and prints a summary.  The definitions below
translate, clause by clause, the JavaScript functions `urlsToAudit`
(normalization and deduplication), `runLighthouseForUrl` (per-URL auditor
invocation), `processUrlsInChunks` (the windowed batch loop),
`concurrentAudits` (window-size parsing) and the close-call behaviour of
`runLighthouse` (browser lifecycle).  External effects — the spawned
subprocess and the filesystem — are passed in as an explicit environment.
-/

namespace LighthouseCli

/-- JS `String.prototype.startsWith`, expressed on the character data. -/
def strStartsWith (s p : String) : Bool :=
  s.data.take p.data.length == p.data

/-- Scheme normalization from the target-list builder: the script prepends
`https://` when the URL starts with neither `http://` nor `https://`. -/
def normalizeUrl (url : String) : String :=
  if strStartsWith url "http://" || strStartsWith url "https://" then url
  else "https://" ++ url

/-- `[...new Set(list)]`: JS `Set` iteration keeps the first occurrence of
each element, in insertion order.  `seen` accumulates elements already kept. -/
def jsSetDedupAux (seen : List String) : List String → List String
  | [] => []
  | x :: xs =>
    if x ∈ seen then jsSetDedupAux seen xs
    else x :: jsSetDedupAux (x :: seen) xs

def jsSetDedup (l : List String) : List String := jsSetDedupAux [] l

/-- The target-list builder: `[...new Set(urlsToAudit)].map(normalize)` —
the script deduplicates FIRST and only then normalizes the scheme. -/
def buildTargets (urls : List String) : List String :=
  (jsSetDedup urls).map normalizeUrl

/-- One record per audited URL, as returned by `runLighthouseForUrl`. -/
structure AuditResult where
  url : String
  success : Bool
  outputPath : Option String
  error : Option String
deriving DecidableEq, Repr

/-- The character class `[a-zA-Z0-9]` of the sanitizing regex. -/
def isUrlAlphanum (c : Char) : Bool :=
  ('a' ≤ c && c ≤ 'z') || ('A' ≤ c && c ≤ 'Z') || ('0' ≤ c && c ≤ '9')

/-- `url.replace(/^https?:\/\//, '')`: the anchored regex removes one leading
`http://` or `https://` and nothing else. -/
def stripScheme (url : String) : String :=
  if strStartsWith url "https://" then ⟨url.data.drop 8⟩
  else if strStartsWith url "http://" then ⟨url.data.drop 7⟩
  else url

/-- The sanitized file stem of a URL: strip the scheme, replace every
character outside `[a-zA-Z0-9]` with `_`, keep at most 100 characters. -/
def sanitizedUrl (url : String) : String :=
  ⟨((stripScheme url).data.map (fun c => if isUrlAlphanum c then c else '_')).take 100⟩

/-- `resolve(outputDir, sanitizedUrl + '.' + format)`: the report path. -/
def outputPathFor (dir url fmt : String) : String :=
  dir ++ "/" ++ sanitizedUrl url ++ "." ++ fmt

/-! ### Window-size parsing: `parseInt(values.concurrent, 10) || 3` -/

def isDigitChar (c : Char) : Bool := '0' ≤ c && c ≤ '9'

def digitsVal (cs : List Char) : Nat :=
  cs.foldl (fun acc c => 10 * acc + (c.toNat - 48)) 0

/-- The longest digit prefix of `cs`, or `none` when there is none
(`parseInt` yields `NaN` in that case). -/
def parseDigitsPrefix (cs : List Char) : Option Nat :=
  let ds := cs.takeWhile isDigitChar
  if ds.isEmpty then none else some (digitsVal ds)

def isJsSpace (c : Char) : Bool := c = ' ' || c = '\t' || c = '\n' || c = '\r'

/-- JS `parseInt(s, 10)`: skip leading whitespace, read an optional sign and
then the longest digit prefix; `none` models `NaN`. -/
def jsParseInt (s : String) : Option Int :=
  match s.data.dropWhile isJsSpace with
  | '-' :: rest => (parseDigitsPrefix rest).map (fun n => -(n : Int))
  | '+' :: rest => (parseDigitsPrefix rest).map (fun n => (n : Int))
  | rest => (parseDigitsPrefix rest).map (fun n => (n : Int))

/-- `const concurrentAudits = parseInt(values.concurrent, 10) || 3`:
`NaN` and `0` are falsy and fall back to `3`; any other parsed integer —
negative ones included — is used as is. -/
def concurrentAudits (s : String) : Int :=
  match jsParseInt s with
  | none => 3
  | some n => if n = 0 then 3 else n

/-! ### Per-URL invocation: `runLighthouseForUrl` -/

/-- Observable outcome of the `spawnSync` call for the auditor subprocess. -/
structure SpawnResult where
  exitCode : Int
  stderr : String

/-- A JS value as it appears in the file-existence check of
`runLighthouseForUrl`.  `Bun.file(path).exists()` returns a `Promise` — an
object, hence truthy no matter which boolean it will later resolve to.
(The same call is `await`ed where the script reads the URL file.) -/
inductive JsValue where
  | promiseOfBool (b : Bool)
  | boolean (b : Bool)

def jsTruthy : JsValue → Bool
  | .promiseOfBool _ => true
  | .boolean b => b

/-- The external world of one run, as seen by `runLighthouseForUrl`:
whether spawning the auditor for a given URL throws or returns, whether the
report file exists at a given path once the subprocess has returned, and the
configured output directory and format. -/
structure InvocationEnv where
  spawn : String → Except String SpawnResult
  fileCreated : String → Bool
  outputDir : String
  format : String

/-- `Bun.file(path).exists()`: a promise of the underlying filesystem fact. -/
def bunFileExistsCall (env : InvocationEnv) (path : String) : JsValue :=
  .promiseOfBool (env.fileCreated path)

/-- The body of `runLighthouseForUrl` inside its `try`: derive the output
path, spawn the auditor (which may throw, modelled by `Except.error`), then
classify the outcome.  On exit code 0 the script tests
`!Bun.file(outputPath).exists()`; the call is not `await`ed, so the test is
on the truthiness of a `Promise` object and the `Output file not created`
branch is unreachable. -/
def runLighthouseBody (env : InvocationEnv) (url : String) : Except String AuditResult :=
  let outputPath := outputPathFor env.outputDir url env.format
  match env.spawn url with
  | .error msg => .error msg
  | .ok r =>
    if r.exitCode ≠ 0 then
      .ok { url := url, success := false, outputPath := none, error := some r.stderr }
    else if jsTruthy (bunFileExistsCall env outputPath) = false then
      .ok { url := url, success := false, outputPath := none,
            error := some "Output file not created" }
    else
      .ok { url := url, success := true, outputPath := some outputPath, error := none }

/-- `runLighthouseForUrl`: the whole body is wrapped in `try`/`catch`, and
the `catch` returns a failed `AuditResult` carrying the exception message —
the function itself always returns a result. -/
def runLighthouseForUrl (env : InvocationEnv) (url : String) : AuditResult :=
  match runLighthouseBody env url with
  | .ok r => r
  | .error msg => { url := url, success := false, outputPath := none, error := some msg }

/-! ### The windowed batch loop: `processUrlsInChunks` -/

/-- ECMAScript `Array.prototype.slice(start, end)`: negative indices count
from the end of the array, both indices are clamped to `[0, length]`, and the
result is the (possibly empty) range from the resolved start to the resolved
end. -/
def jsSlice {α : Type} (l : List α) (start fin : Int) : List α :=
  let len : Int := l.length
  let s := if start < 0 then max (len + start) 0 else min start len
  let e := if fin < 0 then max (len + fin) 0 else min fin len
  (l.drop s.toNat).take (e - s).toNat

/-- The loop of `processUrlsInChunks`:
`for (let i = 0; i < urls.length; i += chunkSize)` slices the next window,
maps the invoker over it (`Promise.all` keeps the window's order), and
appends the window's results.  The loop index is an integer because
`chunkSize` can be negative; `fuel` bounds the number of iterations we
unfold, `none` meaning the loop has not finished within that many
iterations.  The first component of the result records the successive
`chunk` values (the windows issued), the second the accumulated results. -/
def processLoop {α β : Type} (invoke : α → β) (urls : List α) (chunkSize : Int) :
    Nat → Int → List (List α) → List β → Option (List (List α) × List β)
  | 0, _, _, _ => none
  | fuel + 1, i, ws, rs =>
    if i < (urls.length : Int) then
      let chunk := jsSlice urls i (i + chunkSize)
      processLoop invoke urls chunkSize fuel (i + chunkSize)
        (ws ++ [chunk]) (rs ++ chunk.map invoke)
    else
      some (ws, rs)

/-- `processUrlsInChunks(urls, chunkSize, wsEndpoint)` with the per-URL
invoker abstracted.  For any positive `chunkSize` the loop needs at most
`urls.length` iterations, so `urls.length + 1` fuel is exact for every
terminating run. -/
def processUrlsInChunks {α β : Type} (invoke : α → β) (urls : List α)
    (chunkSize : Int) : Option (List (List α) × List β) :=
  processLoop invoke urls chunkSize (urls.length + 1) 0 [] []

/-- Reference chunking: consecutive windows of `k` elements, the last one
possibly shorter.  (`(a :: rest).drop k = rest.drop (k - 1)` for `k ≥ 1`, so
the recursive call advances past the window just taken.) -/
def chunksOf {α : Type} (k : Nat) : List α → List (List α)
  | [] => []
  | a :: rest => (a :: rest).take k :: chunksOf k (rest.drop (k - 1))
termination_by l => l.length
decreasing_by
  simp only [List.length_drop, List.length_cons]
  omega

/-! ### Browser lifecycle: close calls of `runLighthouse` -/

/-- Which steps of `runLighthouse` throw on a given run.  `connectThrows`:
acquiring the browser (`puppeteer.connect` / `puppeteer.launch`) throws, so
`browser` is never assigned.  `versionThrows`: a step after the assignment
and before the explicit close throws (e.g. `browser.version()`).
`firstCloseThrows`: the explicit `await browser.close()` after the batch
throws. -/
structure RunEnv where
  connectThrows : Bool
  versionThrows : Bool
  firstCloseThrows : Bool
deriving DecidableEq, Repr

/-- Exit status and `browser.close()` call count of one `runLighthouse`
run. -/
structure RunTrace where
  closeCalls : Nat
  exitCode : Option Int
deriving DecidableEq, Repr

/-- The control paths of `runLighthouse`.  The `try` block connects,
queries the version, runs the batch, explicitly closes the browser, and
prints the summary; the `catch` block calls `process.exit(1)`, which
terminates the process at once — the `finally` block does NOT run after it;
the `finally` block closes `browser` again when it was assigned, catching
any error of that second close. -/
def runLighthouseTrace (env : RunEnv) : RunTrace :=
  if env.connectThrows then
    { closeCalls := 0, exitCode := some 1 }
  else if env.versionThrows then
    { closeCalls := 0, exitCode := some 1 }
  else if env.firstCloseThrows then
    { closeCalls := 1, exitCode := some 1 }
  else
    { closeCalls := 2, exitCode := none }

/-! ### Concrete environments for instantiating the theorems -/

/-- A run in which every spawn exits 0 and every report file gets written. -/
def sampleEnv : InvocationEnv :=
  { spawn := fun _ => .ok { exitCode := 0, stderr := "" },
    fileCreated := fun _ => true,
    outputDir := "/reports", format := "json" }

/-- A run in which spawning the auditor itself throws. -/
def spawnFailEnv : InvocationEnv :=
  { spawn := fun _ => .error "spawn lighthouse ENOENT",
    fileCreated := fun _ => false,
    outputDir := "/reports", format := "json" }

/-- A run in which the auditor exits 0 but never writes the report file. -/
def missingFileEnv : InvocationEnv :=
  { spawn := fun _ => .ok { exitCode := 0, stderr := "" },
    fileCreated := fun _ => false,
    outputDir := "/reports", format := "json" }

/-! ## Helper lemmas -/

/-- On a slice that starts inside the list with a positive width `n`,
`jsSlice` is `take n.toNat` after `drop`. -/
lemma jsSlice_take {α : Type} (l : List α) (j : Nat) (n : Int) (hn : 1 ≤ n)
    (hj : j < l.length) :
    jsSlice l (j : Int) ((j : Int) + n) = (l.drop j).take n.toNat := by
  have hjlen : (j : Int) < (l.length : Int) := by exact_mod_cast hj
  simp only [jsSlice]
  rw [if_neg (by omega), if_neg (by omega)]
  have hs : min (j : Int) (l.length : Int) = (j : Int) := by omega
  rw [hs]
  have hd : ((j : Int)).toNat = j := by omega
  rw [hd, List.take_eq_take]
  simp only [List.length_drop]
  omega

/-- Unfolding equation of `chunksOf` on a nonempty list, for positive `k`. -/
lemma chunksOf_cons {α : Type} (k : Nat) (hk : 1 ≤ k) (l : List α) (hl : l ≠ []) :
    chunksOf k l = l.take k :: chunksOf k (l.drop k) := by
  cases l with
  | nil => exact absurd rfl hl
  | cons a rest =>
    rw [chunksOf]
    congr 2
    cases k with
    | zero => omega
    | succ m => simp [List.drop_succ_cons]

lemma chunksOf_flatten_aux {α : Type} (k : Nat) (hk : 1 ≤ k) :
    ∀ (m : Nat) (l : List α), l.length ≤ m → (chunksOf k l).flatten = l := by
  intro m
  induction m with
  | zero =>
    intro l hl
    have : l = [] := List.length_eq_zero.mp (by omega)
    subst this
    simp [chunksOf]
  | succ m ih =>
    intro l hl
    cases l with
    | nil => simp [chunksOf]
    | cons a rest =>
      rw [chunksOf_cons k hk _ (by simp), List.flatten_cons]
      rw [ih ((a :: rest).drop k) (by simp only [List.length_drop, List.length_cons] at hl ⊢; omega)]
      exact List.take_append_drop k (a :: rest)

/-- The windows of `chunksOf` concatenate back to the original list. -/
lemma chunksOf_flatten {α : Type} (k : Nat) (hk : 1 ≤ k) (l : List α) :
    (chunksOf k l).flatten = l :=
  chunksOf_flatten_aux k hk l.length l le_rfl

lemma chunksOf_mem_length_aux {α : Type} (k : Nat) (hk : 1 ≤ k) :
    ∀ (m : Nat) (l : List α), l.length ≤ m →
      ∀ w ∈ chunksOf k l, w.length ≤ k := by
  intro m
  induction m with
  | zero =>
    intro l hl w hw
    have : l = [] := List.length_eq_zero.mp (by omega)
    subst this
    simp [chunksOf] at hw
  | succ m ih =>
    intro l hl w hw
    cases l with
    | nil => simp [chunksOf] at hw
    | cons a rest =>
      rw [chunksOf_cons k hk _ (by simp)] at hw
      rcases List.mem_cons.mp hw with hw1 | hw1
      · simp [hw1, List.length_take]
      · refine ih ((a :: rest).drop k) ?_ w hw1
        simp only [List.length_drop, List.length_cons] at hl ⊢
        omega

/-- Every window of `chunksOf` has at most `k` elements. -/
lemma chunksOf_mem_length {α : Type} (k : Nat) (hk : 1 ≤ k) (l : List α) :
    ∀ w ∈ chunksOf k l, w.length ≤ k :=
  chunksOf_mem_length_aux k hk l.length l le_rfl

lemma chunksOf_dropLast_aux {α : Type} (k : Nat) (hk : 1 ≤ k) :
    ∀ (m : Nat) (l : List α), l.length ≤ m →
      ∀ w ∈ (chunksOf k l).dropLast, w.length = k := by
  intro m
  induction m with
  | zero =>
    intro l hl w hw
    have : l = [] := List.length_eq_zero.mp (by omega)
    subst this
    simp [chunksOf] at hw
  | succ m ih =>
    intro l hl w hw
    cases l with
    | nil => simp [chunksOf] at hw
    | cons a rest =>
      rw [chunksOf_cons k hk _ (by simp)] at hw
      rcases hcs : chunksOf k ((a :: rest).drop k) with _ | ⟨c, cs⟩
      · rw [hcs] at hw
        simp at hw
      · rw [hcs, List.dropLast_cons₂] at hw
        rcases List.mem_cons.mp hw with hw1 | hw1
        · have hne : (a :: rest).drop k ≠ [] := by
            intro hnil
            rw [hnil] at hcs
            simp [chunksOf] at hcs
          have hlong : k < (a :: rest).length := by
            by_contra hcon
            exact hne (List.drop_eq_nil_of_le (by omega))
          rw [hw1, List.length_take]
          simp only [List.length_cons] at hlong ⊢
          omega
        · refine ih ((a :: rest).drop k) ?_ w ?_
          · simp only [List.length_drop, List.length_cons] at hl ⊢
            omega
          · rw [hcs]
            exact hw1

/-- Every window except the last has exactly `k` elements. -/
lemma chunksOf_dropLast {α : Type} (k : Nat) (hk : 1 ≤ k) (l : List α) :
    ∀ w ∈ (chunksOf k l).dropLast, w.length = k :=
  chunksOf_dropLast_aux k hk l.length l le_rfl

/-- Loop invariant of `processLoop` for a positive `chunkSize`: starting at
index `j` with enough fuel, the loop appends the windows of the remaining
suffix and the invoker's results on it, in order. -/
lemma processLoop_eq {α β : Type} (invoke : α → β) (urls : List α) (n : Int)
    (hn : 1 ≤ n) :
    ∀ (fuel : Nat) (j : Nat) (ws : List (List α)) (rs : List β),
      urls.length - j < fuel →
      processLoop invoke urls n fuel (j : Int) ws rs =
        some (ws ++ chunksOf n.toNat (urls.drop j), rs ++ (urls.drop j).map invoke) := by
  intro fuel
  induction fuel with
  | zero => intro j ws rs h; omega
  | succ fuel ih =>
    intro j ws rs h
    simp only [processLoop]
    by_cases hj : j < urls.length
    · rw [if_pos (by exact_mod_cast hj)]
      rw [jsSlice_take urls j n hn hj]
      have hcast : (j : Int) + n = ((j + n.toNat : Nat) : Int) := by omega
      rw [hcast, ih (j + n.toNat) _ _ (by omega)]
      have hnt : 1 ≤ n.toNat := by omega
      have hne : urls.drop j ≠ [] := by
        apply List.ne_nil_of_length_pos
        rw [List.length_drop]
        omega
      rw [chunksOf_cons n.toNat hnt (urls.drop j) hne]
      rw [← List.drop_drop, ← List.take_append_drop n.toNat (urls.drop j)]
      simp [List.take_append_drop]
    · rw [if_neg (by exact_mod_cast hj)]
      have hdrop : urls.drop j = [] := by
        apply List.drop_eq_nil_of_le
        omega
      rw [hdrop]
      simp [chunksOf]

/-- For a positive `chunkSize`, the batch loop terminates within its fuel
and returns exactly the windows of the list and the invoker mapped over the
list in input order. -/
lemma processUrlsInChunks_eq {α β : Type} (invoke : α → β) (urls : List α)
    (n : Int) (hn : 1 ≤ n) :
    processUrlsInChunks invoke urls n = some (chunksOf n.toNat urls, urls.map invoke) := by
  have h := processLoop_eq invoke urls n hn (urls.length + 1) 0 [] [] (by omega)
  simpa using h

/-- For a non-positive `chunkSize` and a nonempty list, the loop index never
reaches the length: the loop runs forever (no amount of fuel finishes it). -/
lemma processLoop_nonpos_none {α β : Type} (invoke : α → β) (urls : List α)
    (n : Int) (hn : n ≤ 0) (hne : urls ≠ []) :
    ∀ (fuel : Nat) (i : Int) (ws : List (List α)) (rs : List β),
      i ≤ 0 → processLoop invoke urls n fuel i ws rs = none := by
  intro fuel
  induction fuel with
  | zero => intro i ws rs hi; rfl
  | succ fuel ih =>
    intro i ws rs hi
    have hlen : 1 ≤ urls.length := List.length_pos.mpr hne
    simp only [processLoop]
    rw [if_pos (by omega)]
    exact ih _ _ _ (by omega)

/-- `runLighthouseForUrl` always reports the URL it was invoked on. -/
lemma runLighthouseForUrl_url (env : InvocationEnv) (url : String) :
    (runLighthouseForUrl env url).url = url := by
  unfold runLighthouseForUrl runLighthouseBody
  cases env.spawn url with
  | error msg => rfl
  | ok r =>
    by_cases hc : r.exitCode ≠ 0
    · simp [hc]
    · simp [hc, jsTruthy, bunFileExistsCall]

/-! ## Claims -/

/-- Claim C1: for every input list of targets and every positive window size
the batch runner returns exactly one `AuditResult` per target, of the same
length and relative order as the deduplicated, normalized input list, the
i-th result's `url` field equal to the i-th target. -/
theorem processUrlsInChunks_results_match_targets (env : InvocationEnv)
    (rawUrls : List String) (n : Int) (hn : 1 ≤ n) :
    ∃ ws rs,
      processUrlsInChunks (runLighthouseForUrl env) (buildTargets rawUrls) n
          = some (ws, rs) ∧
      rs.length = (buildTargets rawUrls).length ∧
      ∀ (i : Nat) (hi : i < rs.length) (hi2 : i < (buildTargets rawUrls).length),
        (rs.get ⟨i, hi⟩).url = (buildTargets rawUrls).get ⟨i, hi2⟩ := by
  refine ⟨chunksOf n.toNat (buildTargets rawUrls),
    (buildTargets rawUrls).map (runLighthouseForUrl env),
    processUrlsInChunks_eq _ _ n hn, by simp, ?_⟩
  intro i hi hi2
  simp only [List.get_eq_getElem, List.getElem_map]
  exact runLighthouseForUrl_url env _

/-- Witness for C1: the end-to-end pair of targets from the spec, window
size 2. -/
theorem processUrlsInChunks_results_match_targets_witness :
    ∃ ws rs,
      processUrlsInChunks (runLighthouseForUrl sampleEnv)
          (buildTargets ["fb.com", "google.com"]) 2 = some (ws, rs) ∧
      rs.length = (buildTargets ["fb.com", "google.com"]).length ∧
      ∀ (i : Nat) (hi : i < rs.length)
        (hi2 : i < (buildTargets ["fb.com", "google.com"]).length),
        (rs.get ⟨i, hi⟩).url = (buildTargets ["fb.com", "google.com"]).get ⟨i, hi2⟩ :=
  processUrlsInChunks_results_match_targets sampleEnv ["fb.com", "google.com"] 2
    (by decide)

/-- Counterexample to C2: the script deduplicates BEFORE normalizing, so
`["a.com","a.com","https://a.com"]` does not collapse to one target. -/
theorem buildTargets_dedup_first_cex :
    (buildTargets ["a.com", "a.com", "https://a.com"]).length = 2 ∧
    buildTargets ["a.com", "a.com", "https://a.com"] ≠ ["https://a.com"] := by
  constructor
  · rfl
  · decide

/-- Claim C2 as amended: deduplication is applied before scheme
normalization, so a bare host and its `https://`-prefixed form survive as
two (now identical) targets. -/
theorem buildTargets_dedup_before_normalize :
    buildTargets ["a.com", "a.com", "https://a.com"]
      = ["https://a.com", "https://a.com"] := rfl

/-- Claim C3 (code bug): with exit code 0 and NO report file on disk,
`runLighthouseForUrl` still returns a succeeded result — the
`Bun.file(outputPath).exists()` call is not awaited, so the test negates a
truthy `Promise` and the `Output file not created` branch is unreachable. -/
theorem runLighthouseForUrl_missing_output_bug :
    missingFileEnv.fileCreated
        (outputPathFor missingFileEnv.outputDir "https://a.com" missingFileEnv.format)
      = false ∧
    runLighthouseForUrl missingFileEnv "https://a.com" =
      { url := "https://a.com", success := true,
        outputPath := some "/reports/a_com.json", error := none } := by
  constructor
  · rfl
  · decide

/-- Counterexample to C4: a negative `--concurrent` value is truthy in JS,
so `parseInt(s,10) || 3` does not fall back to the default and the window
size is not positive. -/
theorem concurrentAudits_negative_cex :
    concurrentAudits "-2" = -2 ∧ concurrentAudits "-2" ≠ 3 ∧
    ¬ (0 < concurrentAudits "-2") := by
  refine ⟨by decide, by decide, by decide⟩

/-- Claim C4 as amended: a non-numeric value (`NaN`) or a value parsing to
`0` falls back to the default 3; any other parsed integer — negative ones
included — is used as the window size unchanged. -/
theorem concurrentAudits_fallback :
    (∀ s : String, jsParseInt s = none → concurrentAudits s = 3) ∧
    (∀ s : String, jsParseInt s = some 0 → concurrentAudits s = 3) ∧
    (∀ (s : String) (n : Int), jsParseInt s = some n → n ≠ 0 →
      concurrentAudits s = n) := by
  refine ⟨?_, ?_, ?_⟩
  · intro s h
    simp [concurrentAudits, h]
  · intro s h
    simp [concurrentAudits, h]
  · intro s n h hn
    simp [concurrentAudits, h, hn]

/-- Witness for the amended C4. -/
theorem concurrentAudits_fallback_witness :
    concurrentAudits "abc" = 3 ∧ concurrentAudits "0" = 3 :=
  ⟨concurrentAudits_fallback.1 "abc" rfl, concurrentAudits_fallback.2.1 "0" rfl⟩

/-- Counterexample to C5: two distinct targets that differ only in scheme
derive the same output path, because sanitization strips the scheme. -/
theorem outputPathFor_not_injective_cex :
    ("https://a.com" : String) ≠ "http://a.com" ∧
    outputPathFor "/reports" "https://a.com" "json"
      = outputPathFor "/reports" "http://a.com" "json" := by
  constructor
  · decide
  · rfl

/-- Claim C5 as amended: the derivation is deterministic (a pure function of
URL and format) and paths differ whenever the sanitized stems differ; but it
is NOT injective on distinct targets — targets with equal sanitized stems
(e.g. the same host under `http://` and `https://`) collide. -/
theorem outputPathFor_injective_on_sanitized (dir u v fmt : String)
    (h : sanitizedUrl u ≠ sanitizedUrl v) :
    outputPathFor dir u fmt ≠ outputPathFor dir v fmt := by
  intro heq
  apply h
  apply String.ext
  have hd := congrArg String.data heq
  simp only [outputPathFor, String.data_append] at hd
  have h1 := List.append_cancel_right hd
  have h2 := List.append_cancel_right h1
  exact List.append_cancel_left h2

/-- Witness for the amended C5. -/
theorem outputPathFor_injective_on_sanitized_witness :
    outputPathFor "/reports" "https://a.com" "json"
      ≠ outputPathFor "/reports" "https://b.com" "json" :=
  outputPathFor_injective_on_sanitized "/reports" "https://a.com" "https://b.com"
    "json" (by decide)

/-- Claim C6 (code bug): on the successful path `browser.close()` is
invoked twice (the explicit close after the batch and the close in the
`finally` block), and on a path where an unexpected exception reaches the
`catch` block it is invoked zero times, because `process.exit(1)` there
terminates the process before the `finally` block — never exactly once. -/
theorem runLighthouse_close_count_bug :
    (runLighthouseTrace
        { connectThrows := false, versionThrows := false, firstCloseThrows := false
        }).closeCalls = 2 ∧
    (runLighthouseTrace
        { connectThrows := false, versionThrows := true, firstCloseThrows := false
        }).closeCalls = 0 := by
  refine ⟨rfl, rfl⟩

/-- Claim C7: `runLighthouseForUrl` never lets an exception escape — every
exception of the body is converted into a failed `AuditResult` carrying the
exception message, and the result always names the target. -/
theorem runLighthouseForUrl_no_escape (env : InvocationEnv) (url : String) :
    (∀ msg : String, runLighthouseBody env url = Except.error msg →
      runLighthouseForUrl env url =
        { url := url, success := false, outputPath := none, error := some msg }) ∧
    (runLighthouseForUrl env url).url = url := by
  constructor
  · intro msg h
    unfold runLighthouseForUrl
    rw [h]
  · exact runLighthouseForUrl_url env url

/-- Witness for C7: a spawn failure surfaces as data, not as an exception. -/
theorem runLighthouseForUrl_no_escape_witness :
    runLighthouseForUrl spawnFailEnv "https://a.com" =
      { url := "https://a.com", success := false, outputPath := none,
        error := some "spawn lighthouse ENOENT" } :=
  (runLighthouseForUrl_no_escape spawnFailEnv "https://a.com").1
    "spawn lighthouse ENOENT" rfl

/-- Claim C8: the batch runner partitions the targets into consecutive
windows of at most `windowSize` elements whose concatenation is the input
list, only the last window possibly smaller; 7 targets with window size 3
yield windows of sizes 3, 3, 1. -/
theorem processUrlsInChunks_windowing (invoke : String → AuditResult)
    (urls : List String) (n : Int) (hn : 1 ≤ n) :
    (∃ ws rs,
      processUrlsInChunks invoke urls n = some (ws, rs) ∧
      ws.flatten = urls ∧
      (∀ w ∈ ws, w.length ≤ n.toNat) ∧
      (∀ w ∈ ws.dropLast, w.length = n.toNat)) ∧
    (processUrlsInChunks invoke
        ["https://u1.com", "https://u2.com", "https://u3.com", "https://u4.com",
         "https://u5.com", "https://u6.com", "https://u7.com"] 3).map
      (fun p => p.1.map List.length) = some [3, 3, 1] := by
  constructor
  · exact ⟨chunksOf n.toNat urls, urls.map invoke,
      processUrlsInChunks_eq invoke urls n hn,
      chunksOf_flatten n.toNat (by omega) urls,
      chunksOf_mem_length n.toNat (by omega) urls,
      chunksOf_dropLast n.toNat (by omega) urls⟩
  · rfl

/-- Witness for C8 at window size 3 over two targets. -/
theorem processUrlsInChunks_windowing_witness :
    (∃ ws rs,
      processUrlsInChunks (runLighthouseForUrl sampleEnv)
          ["https://a.com", "https://b.com"] 3 = some (ws, rs) ∧
      ws.flatten = ["https://a.com", "https://b.com"] ∧
      (∀ w ∈ ws, w.length ≤ (3 : Int).toNat) ∧
      (∀ w ∈ ws.dropLast, w.length = (3 : Int).toNat)) ∧
    (processUrlsInChunks (runLighthouseForUrl sampleEnv)
        ["https://u1.com", "https://u2.com", "https://u3.com", "https://u4.com",
         "https://u5.com", "https://u6.com", "https://u7.com"] 3).map
      (fun p => p.1.map List.length) = some [3, 3, 1] :=
  processUrlsInChunks_windowing (runLighthouseForUrl sampleEnv)
    ["https://a.com", "https://b.com"] 3 (by decide)

/-- Claim C9: scheme normalization prefixes `https://` exactly when neither
`http://` nor `https://` is already present, and otherwise leaves the URL
unchanged; in particular on the spec's two examples. -/
theorem normalizeUrl_scheme :
    normalizeUrl "example.com" = "https://example.com" ∧
    normalizeUrl "http://example.com" = "http://example.com" ∧
    (∀ url : String, strStartsWith url "http://" = false →
      strStartsWith url "https://" = false →
      normalizeUrl url = "https://" ++ url) ∧
    (∀ url : String, strStartsWith url "http://" = true → normalizeUrl url = url) ∧
    (∀ url : String, strStartsWith url "https://" = true → normalizeUrl url = url) := by
  refine ⟨by decide, by decide, ?_, ?_, ?_⟩
  · intro url h1 h2
    simp [normalizeUrl, h1, h2]
  · intro url h
    simp [normalizeUrl, h]
  · intro url h
    simp [normalizeUrl, h]

/-- Witness for C9. -/
theorem normalizeUrl_scheme_witness :
    normalizeUrl "http://x.com" = "http://x.com" :=
  normalizeUrl_scheme.2.2.2.1 "http://x.com" rfl

/-- Claim C10: for every positive chunk size the loop of
`processUrlsInChunks` makes strictly positive progress and terminates
(within its fuel of `urls.length + 1` iterations); for the non-positive
chunk size that the interface derives from `--concurrent "-2"`, the loop
never finishes, whatever the amount of fuel. -/
theorem processUrlsInChunks_termination (invoke : String → AuditResult) :
    (∀ (urls : List String) (n : Int), 1 ≤ n →
      processUrlsInChunks invoke urls n ≠ none) ∧
    concurrentAudits "-2" = -2 ∧
    (∀ (fuel : Nat) (ws : List (List String)) (rs : List AuditResult),
      processLoop invoke ["https://a.com"] (-2) fuel 0 ws rs = none) := by
  refine ⟨?_, by decide, ?_⟩
  · intro urls n hn
    rw [processUrlsInChunks_eq invoke urls n hn]
    simp
  · intro fuel ws rs
    exact processLoop_nonpos_none invoke _ (-2) (by omega) (by simp) fuel 0 ws rs
      le_rfl

/-- Witness for C10. -/
theorem processUrlsInChunks_termination_witness :
    processUrlsInChunks (runLighthouseForUrl sampleEnv) ["https://a.com"] 3 ≠ none :=
  (processUrlsInChunks_termination (runLighthouseForUrl sampleEnv)).1
    ["https://a.com"] 3 (by decide)

end LighthouseCli
